/-
  Verification of the win-rate driver analysis library
  (src/metrics.py and src/decision_engine.py) against its specification.

  The Python code is shallowly embedded: a pandas DataFrame of deals becomes a
  list of `Row`s (plus a recorded column list), pandas Series become
  association lists with string keys, and IEEE-754 special values produced by
  numpy division are made explicit in the `PyFloat` type.  Machine floats are
  modelled as rationals: every arithmetic operation performed by the source
  (sums, counts, division, medians, comparisons against 0.05) is exact in ℚ,
  so no rounding behaviour is lost for the properties considered here.
  Sorting in pandas (`sort_values`, `sorted`, `groupby` key order) is modelled
  with `List.insertionSort`, a stable total-order sort; none of the verified
  properties depends on the order of ties.
-/
import Mathlib

namespace WinRateDriver

/-- A Python/numpy float as produced by the metric code: either a genuine
(here: rational) number, `nan` (e.g. numpy `0/0`), or a signed infinity
(numpy `x/0` for `x ≠ 0`). -/
inductive PyFloat where
  | nan : PyFloat
  | posInf : PyFloat
  | negInf : PyFloat
  | val : ℚ → PyFloat
deriving DecidableEq, Repr

/-- numpy true division: division by zero yields `nan` (for `0/0`) or a signed
infinity, with a runtime warning but no exception. -/
def pyDiv (a b : ℚ) : PyFloat :=
  if b = 0 then
    if a = 0 then PyFloat.nan
    else if 0 < a then PyFloat.posInf
    else PyFloat.negInf
  else PyFloat.val (a / b)

/-- Python comparison `x < c`: any comparison with `nan` is `False`. -/
def pyLtConst (x : PyFloat) (c : ℚ) : Bool :=
  match x with
  | PyFloat.val q => decide (q < c)
  | PyFloat.negInf => true
  | _ => false

/-- Python comparison `x > c`: any comparison with `nan` is `False`. -/
def pyGtConst (x : PyFloat) (c : ℚ) : Bool :=
  match x with
  | PyFloat.val q => decide (c < q)
  | PyFloat.posInf => true
  | _ => false

/-- pandas `Series.mean()`: NaN entries are skipped; the mean of an all-NaN
(or empty) series is NaN. Infinities do not occur in the series this is
applied to (win-rate deltas), so they are treated like NaN here. -/
def pyMean (xs : List PyFloat) : PyFloat :=
  let vals := xs.filterMap (fun x => match x with | PyFloat.val q => some q | _ => none)
  if vals.isEmpty then PyFloat.nan
  else PyFloat.val (vals.sum / (vals.length : ℚ))

/-- The value `x` lies in the closed unit interval (false for `nan`/infinities). -/
def pyInUnitInterval (x : PyFloat) : Prop :=
  match x with
  | PyFloat.val q => 0 ≤ q ∧ q ≤ 1
  | _ => False

/-- The value `x` is a strictly positive number (false for `nan`/infinities). -/
def pyStrictlyPos (x : PyFloat) : Prop :=
  match x with
  | PyFloat.val q => 0 < q
  | _ => False

/-- One deal record.  `outcome` is the `'outcome'` column, `dealAmount` the
`'deal_amount'` column, `cycleDays` the `'sales_cycle_days'` column, and
`get` looks up any further (string-valued) column: the categorical segment
columns and `'created_quarter'`. -/
structure Row where
  outcome : String
  dealAmount : ℚ
  cycleDays : ℚ
  get : String → String

/-- A DataFrame: its column names (used for `in df.columns` checks by the
decision engine) together with its rows. -/
structure DF where
  cols : List String
  rows : List Row

def isWon (r : Row) : Bool := r.outcome == "Won"

def isLost (r : Row) : Bool := r.outcome == "Lost"

/-- Lexicographic strict comparison of character lists by Unicode code point:
Python's `<` on strings. -/
def charListLt : List Char → List Char → Bool
  | _, [] => false
  | [], _ :: _ => true
  | a :: as, b :: bs =>
    a.toNat < b.toNat || (a.toNat = b.toNat && charListLt as bs)

/-- Python's `<=` on strings (code-point lexicographic, the complement of the
reversed strict order). -/
def strLe (a b : String) : Bool := !(charListLt b.data a.data)

/-- `sorted(series.unique())`, and likewise the key order of a pandas
`groupby`: the distinct values, sorted ascending. -/
def sortedUnique (xs : List String) : List String :=
  List.insertionSort (fun a b => strLe a b = true) xs.dedup

/-- The win-rate of one `groupby` bucket: the source's
`lambda x: (x['outcome'] == 'Won').sum() / len(x)` applied to the rows of
`data` whose `col` value is `v`.  Buckets are non-empty by construction, so
the division is exact. -/
def groupFrac (data : List Row) (col v : String) : ℚ :=
  let g := data.filter (fun r => r.get col == v)
  ((g.filter isWon).length : ℚ) / (g.length : ℚ)

/-- `data.groupby(col).apply(lambda x: (x['outcome'] == 'Won').sum() / len(x))`:
one entry per observed value of `col`, keys sorted ascending as pandas does. -/
def groupWinRate (data : List Row) (col : String) : List (String × ℚ) :=
  (sortedUnique (data.map (fun r => r.get col))).map (fun v => (v, groupFrac data col v))

/-- `metrics.win_rate` (ungrouped): `(df['outcome'] == 'Won').sum() / len(df)`.
On an empty frame this is numpy `0/0`, i.e. NaN. -/
def win_rate (rows : List Row) : PyFloat :=
  pyDiv ((rows.filter isWon).length : ℚ) (rows.length : ℚ)

/-- `metrics.win_rate` (grouped): per-group wins/total. -/
def win_rate_grouped (rows : List Row) (col : String) : List (String × ℚ) :=
  groupWinRate rows col

/-- `metrics.revenue_weighted_win_rate` (ungrouped):
`sum(amount | Won) / sum(amount | all)`. -/
def revenue_weighted_win_rate (rows : List Row) : PyFloat :=
  let won_acv := ((rows.filter isWon).map Row.dealAmount).sum
  let total_acv := (rows.map Row.dealAmount).sum
  pyDiv won_acv total_acv

/-- `pandas.Series.median` of a column slice: `none` on an empty slice
(pandas NaN), otherwise the middle element of the sorted values, or the mean
of the two middle elements for even length. -/
def median (xs : List ℚ) : Option ℚ :=
  if xs.isEmpty then none
  else if xs.length % 2 = 1 then
    some ((List.insertionSort (fun a b : ℚ => a ≤ b) xs).getD (xs.length / 2) 0)
  else
    some (((List.insertionSort (fun a b : ℚ => a ≤ b) xs).getD (xs.length / 2 - 1) 0 +
           (List.insertionSort (fun a b : ℚ => a ≤ b) xs).getD (xs.length / 2) 0) / 2)

/-- `metrics.deal_friction_index` (ungrouped): Lost-median cycle length over
Won-median cycle length; NaN when the Won median is NaN (empty subset) or
zero, or when the Lost median is NaN. -/
def deal_friction_index (rows : List Row) : PyFloat :=
  let lost_median := median ((rows.filter isLost).map Row.cycleDays)
  let won_median := median ((rows.filter isWon).map Row.cycleDays)
  match won_median with
  | none => PyFloat.nan
  | some w =>
    if w = 0 then PyFloat.nan
    else
      match lost_median with
      | none => PyFloat.nan
      | some l => PyFloat.val (l / w)

/-- Python slice `periods[-r:]`.  Note `-0 = 0`, so `r = 0` yields the whole
list, not the empty one. -/
def pySliceLast (l : List String) (r : ℕ) : List String :=
  if r = 0 then l else l.drop (l.length - r)

/-- Python slice `periods[-rp:-r]` (used with `rp = recent + previous`,
`r = recent`).  Negative indices clamp at 0; `-0` is index 0. -/
def pySliceWindow (l : List String) (rp r : ℕ) : List String :=
  (l.take (if r = 0 then 0 else l.length - r)).drop (if rp = 0 then 0 else l.length - rp)

/-- Subtraction of two pandas Series with string index: outer alignment on
the (sorted) union of the keys, NaN wherever either operand is missing. -/
def seriesSub (a b : List (String × ℚ)) : List (String × PyFloat) :=
  (sortedUnique (a.map Prod.fst ++ b.map Prod.fst)).map (fun k =>
    (k, match a.lookup k, b.lookup k with
        | some x, some y => PyFloat.val (x - y)
        | _, _ => PyFloat.nan))

/-- `sorted(df[time_period_col].unique())`: the sorted distinct time-period
values of a deal collection. -/
def distinctPeriods (rows : List Row) (time_period_col : String) : List String :=
  sortedUnique (rows.map (fun r => r.get time_period_col))

/-- `metrics.win_rate_delta_by_segment`: split the sorted distinct period
values into the trailing `recent_quarters` window and the `previous_quarters`
window before it, and per segment subtract the previous-window win rate from
the recent-window win rate.  Empty when fewer distinct periods exist than
`recent_quarters + previous_quarters`. -/
def win_rate_delta_by_segment (rows : List Row) (segment_col time_period_col : String)
    (recent_quarters previous_quarters : ℕ) : List (String × PyFloat) :=
  let periods := distinctPeriods rows time_period_col
  if periods.length < recent_quarters + previous_quarters then []
  else
    let recent_periods := pySliceLast periods recent_quarters
    let previous_periods := pySliceWindow periods (recent_quarters + previous_quarters) recent_quarters
    let recent_data := rows.filter (fun r => recent_periods.contains (r.get time_period_col))
    let previous_data := rows.filter (fun r => previous_periods.contains (r.get time_period_col))
    seriesSub (groupWinRate recent_data segment_col) (groupWinRate previous_data segment_col)

/-- Result record of `metrics.loss_concentration_ratio`. -/
structure LCRResult where
  top_segments : List String
  concentration_ratio : ℚ
  segment_loss_pct : List (String × ℚ)
deriving DecidableEq, Repr

/-- `metrics.loss_concentration_ratio`: restrict to Lost deals, count losses
per segment, sort descending, and report the loss share of the top `top_n`
segments plus the full per-segment loss-percentage map. -/
def loss_concentration_ratio (rows : List Row) (segment_col : String) (top_n : ℕ) : LCRResult :=
  let losses := rows.filter isLost
  let total_losses := losses.length
  if total_losses = 0 then ⟨[], 0, []⟩
  else
    let counts := (sortedUnique (losses.map (fun r => r.get segment_col))).map
      (fun v => (v, (losses.filter (fun r => r.get segment_col == v)).length))
    let sortedCounts := List.insertionSort (fun a b : String × ℕ => b.2 ≤ a.2) counts
    let top := sortedCounts.take top_n
    ⟨top.map Prod.fst,
     ((top.map Prod.snd).sum : ℚ) / (total_losses : ℚ),
     sortedCounts.map (fun p => (p.1, ((p.2 : ℚ) / (total_losses : ℚ)) * 100))⟩

/-! ### Feature encoder (decision_engine.prepare_features, categorical branch) -/

/-- A fitted `sklearn.preprocessing.LabelEncoder`: its `classes_` array.
`fit` sets `classes_ = np.unique(values)`, the sorted distinct observed
values; `transform` maps a value to its position in `classes_`. -/
structure LabelEncoder where
  classes : List String
deriving DecidableEq, Repr

/-- `LabelEncoder.fit_transform`'s fitting step: `classes_` is the sorted
list of distinct observed values. -/
def LabelEncoder.fit (values : List String) : LabelEncoder :=
  ⟨sortedUnique values⟩

/-- The position of the first occurrence of `v` in a list, if any. -/
def idxIn (v : String) : List String → Option ℕ
  | [] => none
  | c :: cs => if c = v then some 0 else (idxIn v cs).map (· + 1)

/-- `LabelEncoder.transform` of a single value: its position in `classes_`;
`none` models the `ValueError` sklearn raises for an unseen value. -/
def LabelEncoder.transform (e : LabelEncoder) (v : String) : Option ℕ :=
  idxIn v e.classes

/-- Result of the encode-time branch: the (possibly extended) encoder and the
integer codes of the encoded values. -/
structure EncodeResult where
  encoder : LabelEncoder
  codes : List (Option ℕ)
deriving DecidableEq, Repr

/-- The encode-time branch of `WinRateDriverAnalyzer.prepare_features` for one
categorical column with an already-fitted encoder (decision_engine lines
60-74): rewrite values missing from `classes_` to `'unknown'`, append
`'unknown'` to `classes_` if it is not already present, then transform. -/
def encode_with_unknown (e : LabelEncoder) (values : List String) : EncodeResult :=
  let mapped := values.map (fun x => if e.classes.contains x then x else "unknown")
  let e2 := if e.classes.contains "unknown" then e else ⟨e.classes ++ ["unknown"]⟩
  ⟨e2, mapped.map e2.transform⟩

/-! ### Driver-scoring engine (decision_engine.WinRateDriverAnalyzer) -/

/-- The categorical feature names used by `calculate_revenue_exposure`
(decision_engine lines 199-200; the same set as `prepare_features`'s list). -/
def exposure_categorical : List String :=
  ["acv_bucket", "industry", "region", "product_type", "lead_source", "deal_stage", "cycle_bucket"]

/-- `Series.max()` over a non-empty list (the empty case never arises where
this is used: the grouped exposure series is built from a frame whose total
deal amount is non-zero, hence non-empty). -/
def listMax : List ℚ → ℚ
  | [] => 0
  | x :: xs => xs.foldl max x

/-- `WinRateDriverAnalyzer.calculate_revenue_exposure`: 0 for a feature
missing from the frame; for categorical features, the largest per-category
share of total deal amount (0 if the total is 0); 1 for numerical features. -/
def calculate_revenue_exposure (df : DF) (feature_name : String) : ℚ :=
  if !df.cols.contains feature_name then 0
  else if exposure_categorical.contains feature_name then
    let total_acv := (df.rows.map Row.dealAmount).sum
    if total_acv = 0 then 0
    else
      listMax ((sortedUnique (df.rows.map (fun r => r.get feature_name))).map
        (fun v => ((df.rows.filter (fun r => r.get feature_name == v)).map Row.dealAmount).sum / total_acv))
  else 1

/-- The `{'trend_delta': ..., 'direction': ...}` record produced by
`calculate_recent_trend`. -/
structure TrendInfo where
  trend_delta : PyFloat
  direction : String
deriving DecidableEq, Repr

/-- `WinRateDriverAnalyzer.calculate_recent_trend`: run
`win_rate_delta_by_segment` with a 2-vs-2 quarter window and classify the
mean per-segment delta; stable fallbacks when the feature or the quarter
column is absent, or the delta series is empty.  (The `except` fallback does
not arise: the embedded computation is total.) -/
def calculate_recent_trend (df : DF) (feature_name : String) : TrendInfo :=
  if !df.cols.contains feature_name || !df.cols.contains "created_quarter" then
    ⟨PyFloat.val 0, "stable"⟩
  else
    let wr_delta := win_rate_delta_by_segment df.rows feature_name "created_quarter" 2 2
    if wr_delta.length = 0 then ⟨PyFloat.val 0, "stable"⟩
    else
      let avg_delta := pyMean (wr_delta.map Prod.snd)
      let direction :=
        if pyLtConst avg_delta (-(5/100)) then "worsening"
        else if pyGtConst avg_delta (5/100) then "improving"
        else "stable"
      ⟨avg_delta, direction⟩

/-- The analyzer state relevant to driver scoring: `self.coefficients`
(feature/coefficient rows, `None` before fitting) and `self.df_fitted`. -/
structure WinRateDriverAnalyzer where
  coefficients : Option (List (String × ℚ))
  df_fitted : Option DF

/-- `WinRateDriverAnalyzer.calculate_wrds`: |coefficient| × revenue exposure
× trend multiplier over the passed frame (defaulting to the fitted frame);
just |coefficient| when no frame is available. -/
def calculate_wrds (st : WinRateDriverAnalyzer) (feature_name : String) (coefficient : ℚ)
    (dfArg : Option DF) : ℚ :=
  let impact_strength := |coefficient|
  match (match dfArg with | some d => some d | none => st.df_fitted) with
  | none => impact_strength
  | some df =>
    let revenue_exposure := calculate_revenue_exposure df feature_name
    let trend_info := calculate_recent_trend df feature_name
    let trend_multiplier :=
      if coefficient < 0 then
        if trend_info.direction = "worsening" then (3 : ℚ)/2
        else if trend_info.direction = "improving" then (4 : ℚ)/5
        else 1
      else
        if trend_info.direction = "improving" then (3 : ℚ)/2
        else if trend_info.direction = "worsening" then (4 : ℚ)/5
        else 1
    impact_strength * revenue_exposure * trend_multiplier

/-- One driver entry as assembled by `get_drivers` (the presentation-only
fields — impact arrow, interpretation string, issue/action lists — carry no
additional data and are omitted). -/
structure Driver where
  feature : String
  coefficient : ℚ
  wrds : ℚ
  revenue_exposure : ℚ
  trend_delta : PyFloat
  trend_direction : String
deriving DecidableEq, Repr

/-- The `{'positive_drivers': ..., 'negative_drivers': ...}` result of
`get_drivers`. -/
structure Drivers where
  positive_drivers : List Driver
  negative_drivers : List Driver
deriving DecidableEq, Repr

/-- The sort key of `get_drivers`: `'wrds'` when `include_wrds`, else
`'coefficient'`. -/
def driverKey (include_wrds : Bool) (d : Driver) : ℚ :=
  if include_wrds then d.wrds else d.coefficient

/-- `WinRateDriverAnalyzer.get_drivers`: score every coefficient row, sort
descending by the sort key, keep the first `top_n` positive-coefficient rows
as positive drivers and the LAST `top_n` negative-coefficient rows
(`DataFrame.tail`), re-sorted descending, as negative drivers. -/
def get_drivers (st : WinRateDriverAnalyzer) (top_n : ℕ) (include_wrds : Bool) : Drivers :=
  match st.coefficients with
  | none => ⟨[], []⟩
  | some coefs =>
    let driver_scores := coefs.map (fun fc =>
      let wrds := if include_wrds then calculate_wrds st fc.1 fc.2 none else |fc.2|
      let revenue_exposure :=
        match st.df_fitted with
        | some df => calculate_revenue_exposure df fc.1
        | none => 0
      let trend_info :=
        match st.df_fitted with
        | some df => calculate_recent_trend df fc.1
        | none => ⟨PyFloat.val 0, "stable"⟩
      { feature := fc.1, coefficient := fc.2, wrds := wrds,
        revenue_exposure := revenue_exposure,
        trend_delta := trend_info.trend_delta,
        trend_direction := trend_info.direction : Driver })
    let sorted := List.insertionSort
      (fun a b => driverKey include_wrds b ≤ driverKey include_wrds a) driver_scores
    let positive_list := (sorted.filter (fun d => decide (0 < d.coefficient))).take top_n
    let negatives := sorted.filter (fun d => decide (d.coefficient < 0))
    let negative_list := List.insertionSort
      (fun a b => driverKey include_wrds b ≤ driverKey include_wrds a)
      (negatives.drop (negatives.length - top_n))
    ⟨positive_list, negative_list⟩

/-! ### General helper lemmas -/

theorem mem_sortedUnique {s : String} {xs : List String} : s ∈ sortedUnique xs ↔ s ∈ xs := by
  simp [sortedUnique, List.mem_insertionSort, List.mem_dedup]

theorem lookup_map_graph {β : Type} {g : String → β} {ks : List String} {s : String}
    (h : s ∈ ks) : (ks.map (fun k => (k, g k))).lookup s = some (g s) := by
  induction ks with
  | nil => cases h
  | cons k ks ih =>
    by_cases hsk : s = k
    · subst hsk
      simp [List.lookup]
    · have hk : s ∈ ks := by
        rcases List.mem_cons.mp h with h' | h'
        · cases hsk h'
        · exact h'
      have hbeq : (s == k) = false := beq_eq_false_iff_ne.mpr hsk
      simp only [List.map_cons, List.lookup, hbeq]
      exact ih hk

theorem sum_nonneg_of_mem {l : List ℚ} (h : ∀ x ∈ l, 0 ≤ x) : 0 ≤ l.sum := by
  induction l with
  | nil => simp
  | cons x xs ih =>
    simp only [List.sum_cons]
    have hx := h x (List.mem_cons_self x xs)
    have hxs := ih (fun y hy => h y (List.mem_cons_of_mem x hy))
    linarith

theorem sum_le_sum_of_sublist {l₁ l₂ : List ℚ} (h : List.Sublist l₁ l₂)
    (h0 : ∀ x ∈ l₂, 0 ≤ x) : l₁.sum ≤ l₂.sum := by
  induction h with
  | slnil => simp
  | cons y h ih =>
    simp only [List.sum_cons]
    have hy := h0 y (List.mem_cons_self y _)
    have := ih (fun x hx => h0 x (List.mem_cons_of_mem y hx))
    linarith
  | cons₂ y h ih =>
    simp only [List.sum_cons]
    have := ih (fun x hx => h0 x (List.mem_cons_of_mem y hx))
    linarith

theorem sum_map_const {rows : List Row} {f : Row → ℚ} {a : ℚ} (h : ∀ r ∈ rows, f r = a) :
    (rows.map f).sum = (rows.length : ℚ) * a := by
  induction rows with
  | nil => simp
  | cons x xs ih =>
    simp only [List.map_cons, List.sum_cons, List.length_cons]
    rw [h x (List.mem_cons_self x xs), ih (fun y hy => h y (List.mem_cons_of_mem x hy))]
    push_cast
    ring

theorem dedup_all_eq {l : List String} {s : String} (hne : l ≠ []) (h : ∀ x ∈ l, x = s) :
    l.dedup = [s] := by
  induction l with
  | nil => cases hne rfl
  | cons x xs ih =>
    have hx : x = s := h x (List.mem_cons_self x xs)
    subst hx
    by_cases hxs : xs = []
    · subst hxs
      simp
    · have hall : ∀ z ∈ xs, z = x := fun z hz => h z (List.mem_cons_of_mem x hz)
      have hmem : x ∈ xs := by
        cases xs with
        | nil => cases hxs rfl
        | cons y ys =>
          have hy := hall y (List.mem_cons_self y ys)
          rw [← hy]
          exact List.mem_cons_self y ys
      rw [List.dedup_cons_of_mem hmem]
      exact ih hxs hall

theorem sortedUnique_all_eq {l : List String} {s : String} (hne : l ≠ []) (h : ∀ x ∈ l, x = s) :
    sortedUnique l = [s] := by
  rw [sortedUnique, dedup_all_eq hne h]
  rfl

theorem nodup_fst_eq_of_mem {l : List (String × ℚ)} (h : (l.map Prod.fst).Nodup)
    {f : String} {b c : ℚ} (h1 : (f, b) ∈ l) (h2 : (f, c) ∈ l) : b = c := by
  induction l with
  | nil => cases h1
  | cons x xs ih =>
    rcases List.mem_cons.mp h1 with hb | hb <;> rcases List.mem_cons.mp h2 with hc | hc
    · rw [← hb] at hc
      exact (Prod.mk.injEq _ _ _ _ ▸ hc.symm).2
    · exfalso
      have : f ∈ xs.map Prod.fst := List.mem_map_of_mem Prod.fst hc
      rw [← hb] at h
      simp only [List.map_cons, List.nodup_cons] at h
      exact h.1 this
    · exfalso
      have : f ∈ xs.map Prod.fst := List.mem_map_of_mem Prod.fst hb
      rw [← hc] at h
      simp only [List.map_cons, List.nodup_cons] at h
      exact h.1 this
    · exact ih (by simp only [List.map_cons, List.nodup_cons] at h; exact h.2) hb hc

theorem idxIn_eq_some_of_mem {v : String} {l : List String} (h : v ∈ l) :
    ∃ i, idxIn v l = some i := by
  induction l with
  | nil => cases h
  | cons c cs ih =>
    by_cases hc : c = v
    · exact ⟨0, by simp [idxIn, hc]⟩
    · rcases List.mem_cons.mp h with h' | h'
      · cases hc h'.symm
      · obtain ⟨i, hi⟩ := ih h'
        exact ⟨i + 1, by simp [idxIn, hc, hi]⟩

theorem idxIn_append_of_some {v : String} {l l' : List String} {i : ℕ}
    (h : idxIn v l = some i) : idxIn v (l ++ l') = some i := by
  induction l generalizing i with
  | nil => cases h
  | cons c cs ih =>
    rw [List.cons_append]
    by_cases hc : c = v
    · rw [idxIn, if_pos hc] at h ⊢
      exact h
    · rw [idxIn, if_neg hc] at h ⊢
      rcases hmap : idxIn v cs with _ | j
      · rw [hmap] at h
        cases h
      · rw [hmap] at h
        rw [ih hmap]
        exact h

theorem idxIn_append_self {v : String} {l : List String} (h : v ∉ l) :
    idxIn v (l ++ [v]) = some l.length := by
  induction l with
  | nil => simp [idxIn]
  | cons c cs ih =>
    have hc : c ≠ v := fun hcv => h (hcv ▸ List.mem_cons_self c cs)
    have hv : v ∉ cs := fun hv => h (List.mem_cons_of_mem c hv)
    simp [idxIn, hc, ih hv]

theorem median_eq_none_iff {xs : List ℚ} : median xs = none ↔ xs = [] := by
  by_cases h : xs = []
  · simp [median, h]
  · simp only [median, List.isEmpty_iff, h, if_false, iff_false]
    split <;> simp [h]

theorem median_pos {xs : List ℚ} (hne : xs ≠ []) (hpos : ∀ q ∈ xs, 0 < q) :
    ∃ m, median xs = some m ∧ 0 < m := by
  rw [median, if_neg (by simpa using hne)]
  have hlen : 0 < xs.length := List.length_pos.mpr hne
  have hslen : (List.insertionSort (fun a b : ℚ => a ≤ b) xs).length = xs.length :=
    List.length_insertionSort _ xs
  have hposs : ∀ q ∈ List.insertionSort (fun a b : ℚ => a ≤ b) xs, 0 < q := by
    intro q hq
    exact hpos q ((List.mem_insertionSort _).mp hq)
  have hget : ∀ i, i < xs.length →
      0 < (List.insertionSort (fun a b : ℚ => a ≤ b) xs).getD i 0 := by
    intro i hi
    have hi' : i < (List.insertionSort (fun a b : ℚ => a ≤ b) xs).length := by
      rw [hslen]
      exact hi
    rw [List.getD_eq_getElem?_getD, List.getElem?_eq_getElem hi']
    simpa using hposs _ (List.getElem_mem hi')
  split
  · refine ⟨_, rfl, hget _ ?_⟩
    omega
  · refine ⟨_, rfl, ?_⟩
    have h1 : 0 < (List.insertionSort (fun a b : ℚ => a ≤ b) xs).getD (xs.length / 2 - 1) 0 :=
      hget _ (by omega)
    have h2 : 0 < (List.insertionSort (fun a b : ℚ => a ≤ b) xs).getD (xs.length / 2) 0 :=
      hget _ (by omega)
    linarith

/-! ### Claim C2 -/

/-- C2, counterexample: the claim states that `win_rate` on an empty,
ungrouped deal collection raises an error and never silently returns NaN.
In fact the source computes numpy `0/0`, which emits a warning and evaluates
to NaN: at the concrete empty input the result is exactly NaN. -/
theorem c2_counterexample : win_rate [] = PyFloat.nan := by decide

/-- C2 (amended): `win_rate` on an empty, ungrouped deal collection does not
raise; it silently returns NaN (numpy `0/0`).  When grouped, empty buckets
are simply omitted: every bucket in the grouped result contains at least one
deal. -/
theorem c2_empty_win_rate_is_nan_and_grouped_buckets_nonempty :
    win_rate [] = PyFloat.nan ∧
    ∀ (rows : List Row) (col s : String) (q : ℚ),
      (s, q) ∈ win_rate_grouped rows col → ∃ r ∈ rows, r.get col = s := by
  constructor
  · decide
  · intro rows col s q hmem
    simp only [win_rate_grouped, groupWinRate, List.mem_map] at hmem
    obtain ⟨v, hv, hpair⟩ := hmem
    have hs : v = s := congrArg Prod.fst hpair
    subst hs
    have : v ∈ rows.map (fun r => r.get col) := mem_sortedUnique.mp hv
    simpa using this

theorem c2_witness :
    ∃ r ∈ [Row.mk "Won" 1 1 (fun _ => "A")], r.get "seg" = "A" := by
  apply c2_empty_win_rate_is_nan_and_grouped_buckets_nonempty.2
    [Row.mk "Won" 1 1 (fun _ => "A")] "seg" "A"
    (groupFrac [Row.mk "Won" 1 1 (fun _ => "A")] "seg" "A")
  apply List.mem_map_of_mem
  decide

/-! ### Claim C5 -/

/-- The six-cell trend-multiplier table from the specification (§4.4 step 4):
negative coefficient with worsening/stable/improving trend gives
1.5/1.0/0.8; positive coefficient with improving/stable/worsening trend
gives 1.5/1.0/0.8.  (The table does not speak about a zero coefficient; the
non-negative branch is used there, which is irrelevant because the impact
strength is then 0.) -/
def spec_trend_multiplier (coefficient : ℚ) (direction : String) : ℚ :=
  if coefficient < 0 then
    if direction = "worsening" then (3 : ℚ)/2
    else if direction = "improving" then (4 : ℚ)/5
    else 1
  else
    if direction = "improving" then (3 : ℚ)/2
    else if direction = "worsening" then (4 : ℚ)/5
    else 1

/-- C5: for every fitted analyzer (one whose fitted frame is present),
`calculate_wrds` equals |coefficient| × revenue exposure × the six-cell
trend multiplier of the specification table, and a coefficient of exactly 0
yields WRDS = 0 regardless of state, frame, exposure and trend. -/
theorem c5_wrds_is_product_with_table (st : WinRateDriverAnalyzer) (f : String) (c : ℚ)
    (df : DF) (h : st.df_fitted = some df) :
    calculate_wrds st f c none =
      |c| * calculate_revenue_exposure df f *
        spec_trend_multiplier c (calculate_recent_trend df f).direction ∧
    ∀ (st' : WinRateDriverAnalyzer) (f' : String) (dfArg : Option DF),
      calculate_wrds st' f' 0 dfArg = 0 := by
  constructor
  · simp only [calculate_wrds, spec_trend_multiplier, h]
  · intro st' f' dfArg
    rcases dfArg with _ | d
    · rcases hd : st'.df_fitted with _ | d'
      · simp [calculate_wrds, hd]
      · simp [calculate_wrds, hd]
    · simp [calculate_wrds]

theorem c5_witness :
    calculate_wrds ⟨some [("deal_amount", 1)], some ⟨[], []⟩⟩ "deal_amount" 1 none =
      |(1 : ℚ)| * calculate_revenue_exposure ⟨[], []⟩ "deal_amount" *
        spec_trend_multiplier 1 (calculate_recent_trend ⟨[], []⟩ "deal_amount").direction ∧
    ∀ (st' : WinRateDriverAnalyzer) (f' : String) (dfArg : Option DF),
      calculate_wrds st' f' 0 dfArg = 0 :=
  c5_wrds_is_product_with_table ⟨some [("deal_amount", 1)], some ⟨[], []⟩⟩ "deal_amount" 1
    ⟨[], []⟩ rfl

/-! ### Claim C8 -/

/-- C8: an encoder fitted on observed values not containing the `'unknown'`
sentinel, asked to encode a previously-unseen value, never fails: the unseen
value receives the same code as the explicit `'unknown'` sentinel (namely
the next fresh code), the class mapping grows by exactly one entry, and all
previously assigned codes are preserved. -/
theorem c8_unseen_value_maps_to_unknown (observed : List String) (v : String)
    (hu : "unknown" ∉ observed) (hv : v ∉ observed) :
    (encode_with_unknown (LabelEncoder.fit observed) [v]).codes =
      [some (LabelEncoder.fit observed).classes.length] ∧
    (encode_with_unknown (LabelEncoder.fit observed) [v]).encoder.transform "unknown" =
      some (LabelEncoder.fit observed).classes.length ∧
    (encode_with_unknown (LabelEncoder.fit observed) [v]).encoder.classes.length =
      (LabelEncoder.fit observed).classes.length + 1 ∧
    ∀ c ∈ (LabelEncoder.fit observed).classes,
      (encode_with_unknown (LabelEncoder.fit observed) [v]).encoder.transform c =
        (LabelEncoder.fit observed).transform c := by
  have hvc : v ∉ (LabelEncoder.fit observed).classes := by
    simpa [LabelEncoder.fit, mem_sortedUnique] using hv
  have huc : "unknown" ∉ (LabelEncoder.fit observed).classes := by
    simpa [LabelEncoder.fit, mem_sortedUnique] using hu
  have hvcontains : (LabelEncoder.fit observed).classes.contains v = false := by
    simpa using hvc
  have hucontains : (LabelEncoder.fit observed).classes.contains "unknown" = false := by
    simpa using huc
  have hidx : idxIn "unknown" ((LabelEncoder.fit observed).classes ++ ["unknown"]) =
      some (LabelEncoder.fit observed).classes.length := idxIn_append_self huc
  refine ⟨?_, ?_, ?_, ?_⟩
  · simp [encode_with_unknown, hvc, huc, LabelEncoder.transform, hidx]
  · simp [encode_with_unknown, huc, LabelEncoder.transform, hidx]
  · simp [encode_with_unknown, huc]
  · intro c hc
    obtain ⟨i, hi⟩ := idxIn_eq_some_of_mem hc
    simp [encode_with_unknown, huc, LabelEncoder.transform, hi,
      idxIn_append_of_some hi]

theorem c8_witness :
    (encode_with_unknown (LabelEncoder.fit ["X", "Y"]) ["Z"]).codes =
      [some (LabelEncoder.fit ["X", "Y"]).classes.length] ∧
    (encode_with_unknown (LabelEncoder.fit ["X", "Y"]) ["Z"]).encoder.transform "unknown" =
      some (LabelEncoder.fit ["X", "Y"]).classes.length ∧
    (encode_with_unknown (LabelEncoder.fit ["X", "Y"]) ["Z"]).encoder.classes.length =
      (LabelEncoder.fit ["X", "Y"]).classes.length + 1 ∧
    ∀ c ∈ (LabelEncoder.fit ["X", "Y"]).classes,
      (encode_with_unknown (LabelEncoder.fit ["X", "Y"]) ["Z"]).encoder.transform c =
        (LabelEncoder.fit ["X", "Y"]).transform c :=
  c8_unseen_value_maps_to_unknown ["X", "Y"] "Z" (by decide) (by decide)

/-! ### Claim C6 -/

/-- C6, counterexample: the claim asserts RWWR lies in [0, 1] for every
non-empty collection with non-negative amounts.  A single deal of amount 0
is such a collection, but its total amount is 0 and numpy `0/0` yields NaN,
which is not in [0, 1]. -/
theorem c6_counterexample :
    ([Row.mk "Lost" 0 0 (fun _ => "")] : List Row) ≠ [] ∧
    (∀ r ∈ [Row.mk "Lost" 0 0 (fun _ => "")], 0 ≤ r.dealAmount) ∧
    revenue_weighted_win_rate [Row.mk "Lost" 0 0 (fun _ => "")] = PyFloat.nan ∧
    ¬ pyInUnitInterval (revenue_weighted_win_rate [Row.mk "Lost" 0 0 (fun _ => "")]) := by
  refine ⟨by simp, by decide, ?_, ?_⟩
  · simp [revenue_weighted_win_rate, pyDiv, isWon]
  · simp [revenue_weighted_win_rate, pyDiv, isWon, pyInUnitInterval]

/-- C6 (amended): for every deal collection with non-negative amounts whose
total amount is positive (rather than merely non-empty), RWWR lies in
[0, 1]; and whenever every deal has the same positive amount (and the
collection is non-empty), RWWR equals the plain win rate. -/
theorem c6_rwwr_bounds_and_equal_amounts (rows : List Row) (a : ℚ) :
    ((∀ r ∈ rows, 0 ≤ r.dealAmount) → 0 < (rows.map Row.dealAmount).sum →
      pyInUnitInterval (revenue_weighted_win_rate rows)) ∧
    (0 < a → rows ≠ [] → (∀ r ∈ rows, r.dealAmount = a) →
      revenue_weighted_win_rate rows = win_rate rows) := by
  constructor
  · intro hnn htot
    have hsub : List.Sublist ((rows.filter isWon).map Row.dealAmount) (rows.map Row.dealAmount) :=
      (List.filter_sublist rows).map Row.dealAmount
    have hnn' : ∀ x ∈ rows.map Row.dealAmount, 0 ≤ x := by
      intro x hx
      obtain ⟨r, hr, hrx⟩ := List.mem_map.mp hx
      exact hrx ▸ hnn r hr
    have hwonnn : 0 ≤ ((rows.filter isWon).map Row.dealAmount).sum := by
      apply sum_nonneg_of_mem
      intro x hx
      exact hnn' x (hsub.mem hx)
    have hle : ((rows.filter isWon).map Row.dealAmount).sum ≤ (rows.map Row.dealAmount).sum :=
      sum_le_sum_of_sublist hsub hnn'
    rw [revenue_weighted_win_rate, pyDiv, if_neg (ne_of_gt htot)]
    exact ⟨div_nonneg hwonnn (le_of_lt htot), (div_le_one htot).mpr hle⟩
  · intro ha hne hall
    have hlen : 0 < rows.length := List.length_pos.mpr hne
    have hwall : ∀ r ∈ rows.filter isWon, r.dealAmount = a := by
      intro r hr
      exact hall r (List.mem_of_mem_filter hr)
    have htotal : (rows.map Row.dealAmount).sum = (rows.length : ℚ) * a := sum_map_const hall
    have hwon : ((rows.filter isWon).map Row.dealAmount).sum =
        ((rows.filter isWon).length : ℚ) * a := sum_map_const hwall
    have hlen' : (0 : ℚ) < (rows.length : ℚ) := by exact_mod_cast hlen
    have htne : (rows.length : ℚ) * a ≠ 0 := ne_of_gt (mul_pos hlen' ha)
    rw [revenue_weighted_win_rate, win_rate, htotal, hwon, pyDiv, pyDiv,
      if_neg htne, if_neg (ne_of_gt hlen')]
    rw [mul_div_mul_right _ _ (ne_of_gt ha)]

theorem c6_witness :
    pyInUnitInterval (revenue_weighted_win_rate
      [Row.mk "Won" 2 1 (fun _ => ""), Row.mk "Lost" 2 1 (fun _ => "")]) ∧
    revenue_weighted_win_rate [Row.mk "Won" 2 1 (fun _ => ""), Row.mk "Lost" 2 1 (fun _ => "")] =
      win_rate [Row.mk "Won" 2 1 (fun _ => ""), Row.mk "Lost" 2 1 (fun _ => "")] := by
  constructor
  · apply (c6_rwwr_bounds_and_equal_amounts
      [Row.mk "Won" 2 1 (fun _ => ""), Row.mk "Lost" 2 1 (fun _ => "")] 2).1
    · decide
    · simp
  · apply (c6_rwwr_bounds_and_equal_amounts
      [Row.mk "Won" 2 1 (fun _ => ""), Row.mk "Lost" 2 1 (fun _ => "")] 2).2
    · norm_num
    · simp
    · decide

/-! ### Claim C7 -/

/-- C7: with zero Lost deals, `loss_concentration_ratio` returns the
well-defined empty/zero record (ratio 0, no top segments, empty loss-share
map) without raising; and when every Lost deal falls in a single segment
value, the concentration ratio is exactly 1 for every `top_n ≥ 1`. -/
theorem c7_loss_concentration_zero_and_single_segment (rows : List Row) (col : String)
    (top_n : ℕ) :
    ((rows.filter isLost).length = 0 →
      loss_concentration_ratio rows col top_n = ⟨[], 0, []⟩) ∧
    (∀ s : String, 1 ≤ top_n → (rows.filter isLost).length ≠ 0 →
      (∀ r ∈ rows.filter isLost, r.get col = s) →
      (loss_concentration_ratio rows col top_n).concentration_ratio = 1) := by
  constructor
  · intro h
    simp [loss_concentration_ratio, h]
  · intro s htop hne hall
    have hfil : (rows.filter isLost).filter (fun r => r.get col == s) = rows.filter isLost := by
      apply List.filter_eq_self.mpr
      intro r hr
      simpa using hall r hr
    have hkeys : sortedUnique ((rows.filter isLost).map (fun r => r.get col)) = [s] := by
      apply sortedUnique_all_eq
      · simpa [List.length_eq_zero] using hne
      · intro x hx
        obtain ⟨r, hr, hrx⟩ := List.mem_map.mp hx
        exact hrx ▸ hall r hr
    have hq : ((rows.filter isLost).length : ℚ) ≠ 0 := by exact_mod_cast hne
    simp only [loss_concentration_ratio, if_neg hne, hkeys, List.map_cons, List.map_nil,
      hfil]
    rw [List.insertionSort]
    rw [List.take_of_length_le (by simpa using htop)]
    simp [div_self hq]

theorem c7_witness :
    (loss_concentration_ratio
      [Row.mk "Lost" 1 1 (fun _ => "E"), Row.mk "Lost" 1 1 (fun _ => "E"),
       Row.mk "Won" 1 1 (fun _ => "S")] "seg" 1).concentration_ratio = 1 := by
  apply (c7_loss_concentration_zero_and_single_segment
    [Row.mk "Lost" 1 1 (fun _ => "E"), Row.mk "Lost" 1 1 (fun _ => "E"),
     Row.mk "Won" 1 1 (fun _ => "S")] "seg" 1).2 "E"
  · decide
  · decide
  · decide

/-! ### Claim C4 -/

/-- C4, counterexample: the claim asserts that outside the sentinel cases
the friction index is strictly positive.  With one Won deal of cycle length
5 and one Lost deal of cycle length 0 (cycle lengths are only required to be
≥ 0 by the data model), neither subset is empty and the Won median is 5, yet
the index is 0/5 = 0, which is not strictly positive. -/
theorem c4_counterexample :
    ((([Row.mk "Won" 0 5 (fun _ => ""), Row.mk "Lost" 0 0 (fun _ => "")] : List Row).filter
        isWon).length = 1) ∧
    ((([Row.mk "Won" 0 5 (fun _ => ""), Row.mk "Lost" 0 0 (fun _ => "")] : List Row).filter
        isLost).length = 1) ∧
    deal_friction_index [Row.mk "Won" 0 5 (fun _ => ""), Row.mk "Lost" 0 0 (fun _ => "")] ≠
      PyFloat.nan ∧
    ¬ pyStrictlyPos
      (deal_friction_index [Row.mk "Won" 0 5 (fun _ => ""), Row.mk "Lost" 0 0 (fun _ => "")]) := by
  refine ⟨by decide, by decide, ?_, ?_⟩
  · norm_num +decide [deal_friction_index, median, isWon, isLost, List.insertionSort,
      List.orderedInsert]
  · norm_num +decide [deal_friction_index, median, isWon, isLost, List.insertionSort,
      List.orderedInsert, pyStrictlyPos]

/-- C4 (amended): `deal_friction_index` (ungrouped) returns the NaN sentinel
exactly when the Won subset is empty, the Lost subset is empty, or the Won
median cycle length is zero; in every other case it returns the Lost median
divided by the Won median, and that value is strictly positive provided all
cycle lengths in the collection are strictly positive (with a zero cycle
length among the Lost deals the ratio can be 0). -/
theorem c4_friction_index_sentinel_and_positivity (rows : List Row) :
    (deal_friction_index rows = PyFloat.nan ↔
      ((rows.filter isWon).map Row.cycleDays = [] ∨
       (rows.filter isLost).map Row.cycleDays = [] ∨
       median ((rows.filter isWon).map Row.cycleDays) = some 0)) ∧
    (∀ w l : ℚ, median ((rows.filter isWon).map Row.cycleDays) = some w → w ≠ 0 →
      median ((rows.filter isLost).map Row.cycleDays) = some l →
      deal_friction_index rows = PyFloat.val (l / w)) ∧
    ((∀ r ∈ rows, 0 < r.cycleDays) → (rows.filter isWon).map Row.cycleDays ≠ [] →
      (rows.filter isLost).map Row.cycleDays ≠ [] →
      pyStrictlyPos (deal_friction_index rows)) := by
  have hval : ∀ w l : ℚ, median ((rows.filter isWon).map Row.cycleDays) = some w → w ≠ 0 →
      median ((rows.filter isLost).map Row.cycleDays) = some l →
      deal_friction_index rows = PyFloat.val (l / w) := by
    intro w l hw hw0 hl
    simp [deal_friction_index, hw, hl, hw0]
  refine ⟨?_, hval, ?_⟩
  · constructor
    · intro h
      rcases hw : median ((rows.filter isWon).map Row.cycleDays) with _ | w
      · exact Or.inl (median_eq_none_iff.mp hw)
      · by_cases hw0 : w = 0
        · subst hw0
          exact Or.inr (Or.inr rfl)
        · rcases hl : median ((rows.filter isLost).map Row.cycleDays) with _ | l
          · exact Or.inr (Or.inl (median_eq_none_iff.mp hl))
          · rw [hval w l hw hw0 hl] at h
            cases h
    · intro h
      rcases h with h | h | h
      · have : median ((rows.filter isWon).map Row.cycleDays) = none :=
          median_eq_none_iff.mpr h
        simp [deal_friction_index, this]
      · have : median ((rows.filter isLost).map Row.cycleDays) = none :=
          median_eq_none_iff.mpr h
        rcases hw : median ((rows.filter isWon).map Row.cycleDays) with _ | w
        · simp [deal_friction_index, hw]
        · by_cases hw0 : w = 0 <;> simp [deal_friction_index, hw, this, hw0]
      · simp [deal_friction_index, h]
  · intro hpos hwne hlne
    have hwpos : ∀ q ∈ (rows.filter isWon).map Row.cycleDays, 0 < q := by
      intro q hq
      obtain ⟨r, hr, hrq⟩ := List.mem_map.mp hq
      exact hrq ▸ hpos r (List.mem_of_mem_filter hr)
    have hlpos : ∀ q ∈ (rows.filter isLost).map Row.cycleDays, 0 < q := by
      intro q hq
      obtain ⟨r, hr, hrq⟩ := List.mem_map.mp hq
      exact hrq ▸ hpos r (List.mem_of_mem_filter hr)
    obtain ⟨w, hw, hwgt⟩ := median_pos hwne hwpos
    obtain ⟨l, hl, hlgt⟩ := median_pos hlne hlpos
    rw [hval w l hw (ne_of_gt hwgt) hl]
    exact div_pos hlgt hwgt

theorem c4_witness :
    deal_friction_index [Row.mk "Won" 0 3 (fun _ => ""), Row.mk "Lost" 0 6 (fun _ => "")] =
      PyFloat.val (6 / 3) ∧
    pyStrictlyPos
      (deal_friction_index [Row.mk "Won" 0 3 (fun _ => ""), Row.mk "Lost" 0 6 (fun _ => "")]) := by
  constructor
  · apply (c4_friction_index_sentinel_and_positivity
      [Row.mk "Won" 0 3 (fun _ => ""), Row.mk "Lost" 0 6 (fun _ => "")]).2.1 3 6
    · decide
    · decide
    · decide
  · apply (c4_friction_index_sentinel_and_positivity
      [Row.mk "Won" 0 3 (fun _ => ""), Row.mk "Lost" 0 6 (fun _ => "")]).2.2
    · decide
    · decide
    · decide

/-! ### Claims C9 and C10 -/

theorem pairwise_insertionSort_key (key : Driver → ℚ) (l : List Driver) :
    (List.insertionSort (fun a b => key b ≤ key a) l).Pairwise (fun a b => key b ≤ key a) := by
  have h1 : IsTotal Driver (fun a b => key b ≤ key a) := ⟨fun a b => le_total (key b) (key a)⟩
  have h2 : IsTrans Driver (fun a b => key b ≤ key a) :=
    ⟨fun a b c hab hbc => le_trans hbc hab⟩
  exact List.sorted_insertionSort _ l

/-- C9: for every analyzer state and every `top_n`, both lists returned by
`get_drivers` (with WRDS scoring) are sorted by WRDS in descending order,
every positive-driver entry has a strictly positive coefficient and every
negative-driver entry has a strictly negative coefficient. -/
theorem c9_driver_lists_sorted_and_sign_split (st : WinRateDriverAnalyzer) (top_n : ℕ) :
    (get_drivers st top_n true).positive_drivers.Pairwise (fun a b => b.wrds ≤ a.wrds) ∧
    (get_drivers st top_n true).negative_drivers.Pairwise (fun a b => b.wrds ≤ a.wrds) ∧
    (∀ d ∈ (get_drivers st top_n true).positive_drivers, 0 < d.coefficient) ∧
    (∀ d ∈ (get_drivers st top_n true).negative_drivers, d.coefficient < 0) := by
  have hkey : ∀ d : Driver, driverKey true d = d.wrds := fun d => rfl
  rcases hc : st.coefficients with _ | coefs
  · simp [get_drivers, hc]
  · simp only [get_drivers, hc]
    refine ⟨?_, ?_, ?_, ?_⟩
    · apply List.Pairwise.sublist (List.Sublist.trans (List.take_sublist _ _)
        (List.filter_sublist _))
      exact pairwise_insertionSort_key (driverKey true) _
    · exact pairwise_insertionSort_key (driverKey true) _
    · intro d hd
      have hd' := List.mem_of_mem_take hd
      have := (List.mem_filter.mp hd').2
      simpa using this
    · intro d hd
      have hd' := (List.mem_insertionSort _).mp hd
      have hd'' := List.mem_of_mem_drop hd'
      have := (List.mem_filter.mp hd'').2
      simpa using this

theorem c9_witness :
    0 < ({ feature := "f1", coefficient := 1, wrds := |(1 : ℚ)|, revenue_exposure := 0,
           trend_delta := PyFloat.val 0, trend_direction := "stable" } : Driver).coefficient :=
  (c9_driver_lists_sorted_and_sign_split ⟨some [("f1", 1)], none⟩ 1).2.2.1 _ (by decide)

/-- C10: a coefficient row whose coefficient is exactly 0 contributes to
neither the positive nor the negative driver list, for any `top_n` and
either scoring mode: the sign split uses strict inequalities.  (The feature
names of the coefficient rows are distinct, as they are the columns of the
fitted feature matrix.) -/
theorem c10_zero_coefficient_dropped (st : WinRateDriverAnalyzer) (top_n : ℕ)
    (include_wrds : Bool) (coefs : List (String × ℚ)) (f : String)
    (hc : st.coefficients = some coefs) (hnd : (coefs.map Prod.fst).Nodup)
    (hf : (f, 0) ∈ coefs) :
    f ∉ (get_drivers st top_n include_wrds).positive_drivers.map Driver.feature ∧
    f ∉ (get_drivers st top_n include_wrds).negative_drivers.map Driver.feature := by
  have hfeat : ∀ d ∈ (List.insertionSort
      (fun a b => driverKey include_wrds b ≤ driverKey include_wrds a)
      (coefs.map (fun fc =>
        ({ feature := fc.1, coefficient := fc.2,
           wrds := if include_wrds then calculate_wrds st fc.1 fc.2 none else |fc.2|,
           revenue_exposure :=
             match st.df_fitted with
             | some df => calculate_revenue_exposure df fc.1
             | none => 0,
           trend_delta :=
             (match st.df_fitted with
              | some df => calculate_recent_trend df fc.1
              | none => ⟨PyFloat.val 0, "stable"⟩).trend_delta,
           trend_direction :=
             (match st.df_fitted with
              | some df => calculate_recent_trend df fc.1
              | none => ⟨PyFloat.val 0, "stable"⟩).direction } : Driver)))),
      d.feature = f → d.coefficient = 0 := by
    intro d hd hdf
    have hd' := (List.mem_insertionSort _).mp hd
    obtain ⟨fc, hfc, hfcd⟩ := List.mem_map.mp hd'
    have h1 : fc.1 = f := by
      rw [← hdf, ← hfcd]
    have h2 : d.coefficient = fc.2 := by
      rw [← hfcd]
    rw [h2]
    exact nodup_fst_eq_of_mem hnd (h1 ▸ (Prod.mk.eta ▸ hfc)) hf
  constructor
  · intro hmem
    simp only [get_drivers, hc, List.mem_map] at hmem
    obtain ⟨d, hd, hdf⟩ := hmem
    have hd' := List.mem_of_mem_take hd
    have hpos := (List.mem_filter.mp hd').2
    have h0 : d.coefficient = 0 :=
      hfeat d ((List.mem_filter.mp hd').1) hdf
    rw [h0] at hpos
    simp at hpos
  · intro hmem
    simp only [get_drivers, hc, List.mem_map] at hmem
    obtain ⟨d, hd, hdf⟩ := hmem
    have hd1 := (List.mem_insertionSort _).mp hd
    have hd2 := List.mem_of_mem_drop hd1
    have hneg := (List.mem_filter.mp hd2).2
    have h0 : d.coefficient = 0 :=
      hfeat d ((List.mem_filter.mp hd2).1) hdf
    rw [h0] at hneg
    simp at hneg

theorem c10_witness :
    "z" ∉ (get_drivers ⟨some [("z", 0), ("w", 1)], none⟩ 5 true).positive_drivers.map
      Driver.feature ∧
    "z" ∉ (get_drivers ⟨some [("z", 0), ("w", 1)], none⟩ 5 true).negative_drivers.map
      Driver.feature :=
  c10_zero_coefficient_dropped ⟨some [("z", 0), ("w", 1)], none⟩ 5 true
    [("z", 0), ("w", 1)] "z" rfl (by decide) (by decide)

/-! ### Claim C1 -/

/-- A fitted analyzer exhibiting the tail-selection slip of `get_drivers`:
three purely numerical features (revenue exposure 1, no quarter column so
the trend is stable and the multiplier 1) with coefficients -3, -2, -1, so
the WRDS scores are 3, 2 and 1. -/
def dfTail : DF := ⟨["a", "b", "c"], [⟨"Won", 1, 1, fun _ => "q"⟩]⟩

def stTail : WinRateDriverAnalyzer := ⟨some [("a", -3), ("b", -2), ("c", -1)], some dfTail⟩

/-- C1: evaluating `get_drivers` at the failing input.  All three features
have negative coefficients with WRDS 3, 2, 1 respectively; the two
negative-coefficient features with the highest WRDS are "a" and "b", but
with `top_n = 2` the code returns ["b", "c"] — `DataFrame.tail` keeps the
LAST `top_n` rows of the WRDS-descending sort, i.e. the `top_n` lowest-WRDS
negative features, not the highest, contradicting the claimed symmetry with
the positive side (and the function's own docstring, "Get top ... drivers
with WRDS scoring"). -/
theorem c1_tail_keeps_lowest_wrds :
    calculate_wrds stTail "a" (-3) none = 3 ∧
    calculate_wrds stTail "b" (-2) none = 2 ∧
    calculate_wrds stTail "c" (-1) none = 1 ∧
    (get_drivers stTail 2 true).negative_drivers.map Driver.feature = ["b", "c"] ∧
    "a" ∉ (get_drivers stTail 2 true).negative_drivers.map Driver.feature := by
  refine ⟨?_, ?_, ?_, ?_, ?_⟩ <;>
    norm_num +decide [get_drivers, calculate_wrds, calculate_revenue_exposure,
      calculate_recent_trend, dfTail, stTail, exposure_categorical, driverKey,
      List.insertionSort, List.orderedInsert]

/-! ### Claim C3 -/

/-- The trailing window of the claim: the last `r` of the sorted distinct
period values. -/
def recentWindow (rows : List Row) (per : String) (r : ℕ) : List String :=
  (distinctPeriods rows per).drop ((distinctPeriods rows per).length - r)

/-- The previous window of the claim: the `p` period values immediately
preceding the trailing window, adjacent and non-overlapping, taken from the
tail of the sorted period list. -/
def previousWindow (rows : List Row) (per : String) (r p : ℕ) : List String :=
  ((distinctPeriods rows per).take ((distinctPeriods rows per).length - r)).drop
    ((distinctPeriods rows per).length - (r + p))

theorem keys_groupWinRate (data : List Row) (col : String) :
    (groupWinRate data col).map Prod.fst = sortedUnique (data.map (fun r => r.get col)) := by
  simp only [groupWinRate, List.map_map]
  exact List.map_id _ ▸ rfl

/-- C3: `win_rate_delta_by_segment` returns the empty result whenever fewer
distinct time-period values exist than `recent_quarters + previous_quarters`;
otherwise, for every segment with deals in both windows, it maps that
segment to the win rate over the last `recent_quarters` sorted distinct
periods minus the win rate over the immediately preceding
`previous_quarters` periods, the two windows being adjacent, non-overlapping
and taken from the tail of the sorted period list. -/
theorem c3_delta_windows_and_precondition (rows : List Row) (seg per : String) (r p : ℕ) :
    ((distinctPeriods rows per).length < r + p →
      win_rate_delta_by_segment rows seg per r p = []) ∧
    (r + p ≤ (distinctPeriods rows per).length →
      ∀ s : String,
        (∃ x ∈ rows, x.get seg = s ∧ (recentWindow rows per r).contains (x.get per)) →
        (∃ x ∈ rows, x.get seg = s ∧ (previousWindow rows per r p).contains (x.get per)) →
        (win_rate_delta_by_segment rows seg per r p).lookup s =
          some (PyFloat.val
            (groupFrac
              (rows.filter (fun x => (recentWindow rows per r).contains (x.get per))) seg s -
             groupFrac
              (rows.filter (fun x => (previousWindow rows per r p).contains (x.get per))) seg s))) := by
  constructor
  · intro h
    simp only [win_rate_delta_by_segment]
    rw [if_pos h]
  · intro h s h1 h2
    cases r with
    | zero =>
      exfalso
      obtain ⟨x, hx, hseg, hcont⟩ := h1
      rw [recentWindow, Nat.sub_zero, List.drop_length] at hcont
      simp at hcont
    | succ r' =>
      have hrecent : pySliceLast (distinctPeriods rows per) (r' + 1) =
          recentWindow rows per (r' + 1) := by
        simp [pySliceLast, recentWindow]
      have hprev : pySliceWindow (distinctPeriods rows per) (r' + 1 + p) (r' + 1) =
          previousWindow rows per (r' + 1) p := by
        simp [pySliceWindow, previousWindow]
      simp only [win_rate_delta_by_segment, if_neg (not_lt.mpr h), hrecent, hprev]
      obtain ⟨x, hx, hxseg, hxcont⟩ := h1
      obtain ⟨y, hy, hyseg, hycont⟩ := h2
      have hxA : x ∈ rows.filter
          (fun z => (recentWindow rows per (r' + 1)).contains (z.get per)) :=
        List.mem_filter.mpr ⟨hx, hxcont⟩
      have hyB : y ∈ rows.filter
          (fun z => (previousWindow rows per (r' + 1) p).contains (z.get per)) :=
        List.mem_filter.mpr ⟨hy, hycont⟩
      have hsA : s ∈ sortedUnique ((rows.filter
          (fun z => (recentWindow rows per (r' + 1)).contains (z.get per))).map
            (fun z => z.get seg)) := by
        apply mem_sortedUnique.mpr
        rw [← hxseg]
        exact List.mem_map_of_mem _ hxA
      have hsB : s ∈ sortedUnique ((rows.filter
          (fun z => (previousWindow rows per (r' + 1) p).contains (z.get per))).map
            (fun z => z.get seg)) := by
        apply mem_sortedUnique.mpr
        rw [← hyseg]
        exact List.mem_map_of_mem _ hyB
      have hA : (groupWinRate (rows.filter
          (fun z => (recentWindow rows per (r' + 1)).contains (z.get per))) seg).lookup s =
          some (groupFrac (rows.filter
            (fun z => (recentWindow rows per (r' + 1)).contains (z.get per))) seg s) :=
        lookup_map_graph hsA
      have hB : (groupWinRate (rows.filter
          (fun z => (previousWindow rows per (r' + 1) p).contains (z.get per))) seg).lookup s =
          some (groupFrac (rows.filter
            (fun z => (previousWindow rows per (r' + 1) p).contains (z.get per))) seg s) :=
        lookup_map_graph hsB
      have hsUnion : s ∈ sortedUnique
          ((groupWinRate (rows.filter
              (fun z => (recentWindow rows per (r' + 1)).contains (z.get per))) seg).map
                Prod.fst ++
           (groupWinRate (rows.filter
              (fun z => (previousWindow rows per (r' + 1) p).contains (z.get per))) seg).map
                Prod.fst) := by
        apply mem_sortedUnique.mpr
        apply List.mem_append_left
        rw [keys_groupWinRate]
        exact hsA
      rw [seriesSub, lookup_map_graph hsUnion, hA, hB]

theorem c3_witness :
    (win_rate_delta_by_segment
      [Row.mk "Won" 1 1 (fun c => if c = "seg" then "A" else "Q1"),
       Row.mk "Lost" 1 1 (fun c => if c = "seg" then "A" else "Q2"),
       Row.mk "Won" 1 1 (fun c => if c = "seg" then "A" else "Q3"),
       Row.mk "Won" 1 1 (fun c => if c = "seg" then "A" else "Q4")] "seg" "per" 2 2).lookup "A" =
      some (PyFloat.val
        (groupFrac
          ([Row.mk "Won" 1 1 (fun c => if c = "seg" then "A" else "Q1"),
            Row.mk "Lost" 1 1 (fun c => if c = "seg" then "A" else "Q2"),
            Row.mk "Won" 1 1 (fun c => if c = "seg" then "A" else "Q3"),
            Row.mk "Won" 1 1 (fun c => if c = "seg" then "A" else "Q4")].filter
              (fun x => (recentWindow
                [Row.mk "Won" 1 1 (fun c => if c = "seg" then "A" else "Q1"),
                 Row.mk "Lost" 1 1 (fun c => if c = "seg" then "A" else "Q2"),
                 Row.mk "Won" 1 1 (fun c => if c = "seg" then "A" else "Q3"),
                 Row.mk "Won" 1 1 (fun c => if c = "seg" then "A" else "Q4")] "per" 2).contains
                   (x.get "per"))) "seg" "A" -
         groupFrac
          ([Row.mk "Won" 1 1 (fun c => if c = "seg" then "A" else "Q1"),
            Row.mk "Lost" 1 1 (fun c => if c = "seg" then "A" else "Q2"),
            Row.mk "Won" 1 1 (fun c => if c = "seg" then "A" else "Q3"),
            Row.mk "Won" 1 1 (fun c => if c = "seg" then "A" else "Q4")].filter
              (fun x => (previousWindow
                [Row.mk "Won" 1 1 (fun c => if c = "seg" then "A" else "Q1"),
                 Row.mk "Lost" 1 1 (fun c => if c = "seg" then "A" else "Q2"),
                 Row.mk "Won" 1 1 (fun c => if c = "seg" then "A" else "Q3"),
                 Row.mk "Won" 1 1 (fun c => if c = "seg" then "A" else "Q4")] "per" 2 2).contains
                   (x.get "per"))) "seg" "A")) := by
  apply (c3_delta_windows_and_precondition _ "seg" "per" 2 2).2
  · decide
  · decide
  · decide

end WinRateDriver
